import Mathlib

/-! cliparser: a verification development.

A shallow embedding of `cliparser.go` (package `cliparser`) and theorems about
its resolver (`parseArgs`), help renderer (`formatHeader`, `formatUsage`,
`printHelp`) and orchestrator (`Run`).

Conventions of the embedding:

* a Go pointer `*T` is an address (`Nat`), and a pointer-typed field is an
  `Option` of an address (`none` is `nil`); a slice of flag pointers is kept
  as a slice of the flags themselves, since no function of the package writes
  through a `*Flag`;
* a Go slice read by value is `Slice α` (`nil`, or the sequence of elements
  seen through it); where a function writes through slices that may share a
  backing array (`AddSubCommand`), the commands lie in a memory `Mem` that
  keeps slice headers and the cells of the backing arrays apart;
* a Go `error` is its message, and `nil` is `none`;
* standard output is a `String` threaded through the printing functions;
* the colour library (`go-pretty/text`) is the parameter `Style`: the package
  only asks it to wrap already formatted text;
* the `for` loop of `parseArgs` is a step function on the cursor, iterated with
  fuel: `none` means the fuel ran out before the loop returned.
-/

namespace Cliparser

/-! ## Data model -/

/-- A Go slice by value: `nil`, or the sequence of elements seen through an
allocated slice. -/
inductive Slice (α : Type) where
  | nil : Slice α
  | mk (elems : List α) : Slice α
  deriving DecidableEq, Repr

namespace Slice

/-- The elements of a slice (`nil` has none). -/
def toList {α : Type} : Slice α → List α
  | nil => []
  | mk xs => xs

/-- Go `len(s)`. -/
def len {α : Type} (s : Slice α) : Nat := s.toList.length

/-- Go `make([]T, 0)`. -/
def make {α : Type} : Slice α := mk []

/-- The slice Go `append(s, x)` returns, by value: the elements of `s`, then
`x`. Into which backing array the call writes is not part of the value; for
slices of command pointers `Mem.append` models it. -/
def append {α : Type} (s : Slice α) (x : α) : Slice α := mk (s.toList ++ [x])

end Slice

/-- A Go `error` value: its message. -/
abbrev Error := String

/-- The address of a heap-allocated `Command`. -/
abbrev CmdPtr := Nat

/-- The address of a heap-allocated `App`. -/
abbrev AppPtr := Nat

/-- A Go `interface{}` value, as far as the package stores one. -/
inductive Any where
  | nil : Any
  | str (s : String) : Any
  | int (n : Int) : Any
  | bool (b : Bool) : Any
  deriving DecidableEq, Repr

/-- The struct `Flag`; the field `Type` is `Type_` here, `Type` being reserved. -/
structure Flag where
  Name : String := ""
  Short : String := ""
  Usage : String := ""
  Value : Any := Any.nil
  Required : Bool := false
  Type_ : String := ""
  deriving DecidableEq, Repr

/-- The struct `Context`; `Flags` is the map `map[string]interface{}` as an
association list, `make(map...)` being the empty one. -/
structure Context where
  Command : Option CmdPtr := none
  Flags : List (String × Any) := []
  Args : Slice String := Slice.nil
  App : Option AppPtr := none
  deriving DecidableEq, Repr

/-- A Go `func(*Context) error`: it receives the context, may write to standard
output, and reports an error or `nil`. -/
abbrev Action := Context → String → String × Option Error

/-- The struct `Command`. -/
structure Command where
  Name : String := ""
  Short : String := ""
  Long : String := ""
  Usage : String := ""
  Example : String := ""
  Action : Option Action := none
  Flags : Slice Flag := Slice.nil
  SubCommands : Slice CmdPtr := Slice.nil
  Parent : Option CmdPtr := none

/-- The struct `App`. -/
structure App where
  Name : String := ""
  Version : String := ""
  Description : String := ""
  Usage : String := ""
  Commands : Slice CmdPtr := Slice.nil
  Flags : Slice Flag := Slice.nil
  Action : Option Action := none

/-- The text-styling capability the package calls (`text.Bold`,
`text.FgHiBlue`, ... of `go-pretty`): each wraps a formatted text. -/
structure Style where
  Bold : String → String
  FgHiBlue : String → String
  FgHiBlack : String → String
  FgGreen : String → String
  FgYellow : String → String

/-- Styling as the identity: plain-text rendering. -/
def Style.plain : Style := ⟨id, id, id, id, id⟩

/-! ## Constructors -/

/-- Go `NewApp`. -/
def NewApp : App :=
  { Commands := Slice.make, Flags := Slice.make }

/-- Go `NewCommand`. -/
def NewCommand (name short long : String) : Command :=
  { Name := name, Short := short, Long := long,
    Flags := Slice.make, SubCommands := Slice.make }

/-- Go `StringFlag`; the field `Short` is initialised from `name`, as in the
source. -/
def StringFlag (name _short usage : String) (required : Bool) : Flag :=
  { Name := name, Short := name, Usage := usage, Required := required,
    Type_ := "string", Value := Any.str "" }

/-- Go `IntFlag`. -/
def IntFlag (name _short usage : String) (required : Bool) : Flag :=
  { Name := name, Short := name, Usage := usage, Required := required,
    Type_ := "int", Value := Any.str "" }

/-- Go `BoolFlag`. -/
def BoolFlag (name _short usage : String) : Flag :=
  { Name := name, Short := name, Usage := usage,
    Type_ := "boolean", Value := Any.str "" }

/-- Go `(*App).AddCommand`, on the receiver's pointee, by value: the struct
`*a` after the call. -/
def App.AddCommand (a : App) (cmd : CmdPtr) : App :=
  { a with Commands := a.Commands.append cmd }

/-- Go `(*App).AddFlag`, on the receiver's pointee, by value. -/
def App.AddFlag (a : App) (flag : Flag) : App :=
  { a with Flags := a.Flags.append flag }

/-! ## Help renderer -/

/-- Go `(*App).formatHeader`; `cmd` is the pointee of the argument, `none` for
`nil`. The two description branches append the two characters slash and n. -/
def App.formatHeader (sty : Style) (a : App) (cmd : Option Command) : String :=
  let header := ""
  let title := sty.FgHiBlue ("📦 " ++ a.Name)
  let title :=
    if a.Version ≠ "" then
      let version := sty.FgHiBlack (" v" ++ a.Version)
      title ++ version
    else title
  let header := header ++ (title ++ "\n")
  let header :=
    match cmd with
    | some c =>
      if c.Long ≠ "" then
        let description := sty.FgHiBlack c.Long
        header ++ (description ++ "/n")
      else if a.Description ≠ "" then
        let description := sty.FgHiBlack a.Description
        header ++ (description ++ "/n")
      else header
    | none =>
      if a.Description ≠ "" then
        let description := sty.FgHiBlack a.Description
        header ++ (description ++ "/n")
      else header
  header

/-- Go `(*App).formatUsage`. -/
def App.formatUsage (sty : Style) (a : App) (cmd : Option Command) : String :=
  let usage := ""
  let usage := usage ++ sty.Bold a.Name
  let usage :=
    match cmd with
    | some c => if c.Name ≠ "" then usage ++ (" " ++ sty.FgGreen c.Name) else usage
    | none => usage
  let usage :=
    if decide (a.Flags.len > 0) || (match cmd with
        | some c => decide (c.Flags.len > 0)
        | none => false) then
      usage ++ (" " ++ sty.FgHiBlack "[FLAGS]")
    else usage
  let usage :=
    match cmd with
    | some c =>
      if c.SubCommands.len > 0 then usage ++ (" " ++ sty.FgYellow "[SUBCOMMAND]")
      else usage
    | none =>
      if a.Commands.len > 0 then usage ++ (" " ++ sty.FgYellow "[COMMAND]")
      else usage
  let usage := usage ++ (" " ++ sty.FgHiBlack "[ARGS...]")
  usage

/-- Go `fmt.Println(s)` on standard output `out`. -/
def println (out s : String) : String := out ++ s ++ "\n"

/-- Go `fmt.Print(s)` on standard output `out`. -/
def print (out s : String) : String := out ++ s

/-- Go `(*App).printHelp`, as a transformer of standard output. -/
def App.printHelp (sty : Style) (a : App) (cmd : Option Command) (out : String) : String :=
  let out := println out ""
  let out := print out (a.formatHeader sty cmd)
  let out := println out ""
  let out := println out (sty.Bold "⚡ USAGE:")
  let out := print out ("  " ++ a.formatUsage sty cmd ++ "\n")
  let out := println out ""
  match cmd with
  | some c =>
    if c.Example ≠ "" then
      let out := println out (sty.Bold "💡 EXAMPLE:")
      let exampleBox := sty.FgGreen ("  " ++ c.Example)
      let out := println out exampleBox
      let out := println out ""
      out
    else out
  | none => out

/-! ## Resolver -/

/-- What one pass through the body of the `for` loop of `parseArgs` does:
return from the function, or reach the end of the body with a cursor. -/
inductive LoopStep where
  | ret (ctx : Context) (err : Option Error) : LoopStep
  | next (i : Nat) : LoopStep
  deriving DecidableEq, Repr

/-- A reserved help token, the test of the `if` in the loop of `parseArgs`. -/
def isHelpToken (arg : String) : Bool :=
  arg == "help" || arg == "--help" || arg == "-h"

/-- The loop of `parseArgs` at cursor `i`: the test `i < len(args)` and, when
it holds, the body. The body returns on a help token and otherwise ends
without assigning `i`. -/
def parseArgsStep (ctx : Context) (args : List String) (i : Nat) : LoopStep :=
  if h : i < args.length then
    let arg := args.get ⟨i, h⟩
    if isHelpToken arg then LoopStep.ret ctx (some "help_requested")
    else LoopStep.next i
  else LoopStep.ret ctx none

/-- The `for` loop of `parseArgs`, run for at most `fuel` tests of its
condition; `none` when the fuel is used up before a `return`. -/
def parseArgsLoop (ctx : Context) (args : List String) :
    Nat → Nat → Option (Context × Option Error)
  | 0, _ => none
  | fuel + 1, i =>
    match parseArgsStep ctx args i with
    | LoopStep.ret c e => some (c, e)
    | LoopStep.next j => parseArgsLoop ctx args fuel j

/-- Go `(*App).parseArgs`; `a` is the receiver (a pointer, never dereferenced). -/
def App.parseArgs (fuel : Nat) (a : AppPtr) (args : List String) :
    Option (Context × Option Error) :=
  let ctx : Context :=
    { App := some a, Flags := [], Args := Slice.make }
  parseArgsLoop ctx args fuel 0

/-- The variables `ctx` and `i` of `parseArgs` after `n` passes through its
loop, started on `ctx` at cursor 0; once a pass has returned they stay as
they are. -/
def parseArgsState (ctx : Context) (args : List String) : Nat → Context × Nat
  | 0 => (ctx, 0)
  | n + 1 =>
    let st := parseArgsState ctx args n
    match parseArgsStep st.1 args st.2 with
    | LoopStep.ret c _ => (c, st.2)
    | LoopStep.next j => (st.1, j)

/-! ## Orchestrator -/

/-- Go `(*App).Run`: the new standard output and the returned error. -/
def App.Run (sty : Style) (a : App) (args : List String) (out : String) :
    String × Option Error :=
  if args.length < 2 then
    let out := a.printHelp sty none out
    (out, none)
  else
    let out := a.printHelp sty none out
    (out, none)

/-! ## The scenario of the specification: app demo, command greet -/

/-- The address at which the command greet is allocated. -/
def greetPtr : CmdPtr := 0

/-- Command greet, carrying the required string flag name. -/
def greet : Command :=
  { NewCommand "greet" "Greets someone" "" with
    Flags := Slice.make.append (StringFlag "name" "n" "who to greet" true) }

/-- App demo v1.0.0 with the single command greet. -/
def demo : App :=
  ({ NewApp with Name := "demo", Version := "1.0.0" }).AddCommand greetPtr

/-- The commands allocated in the scenario: greet alone. -/
def demoHeap : CmdPtr → Option Command :=
  fun p => if p = greetPtr then some greet else none

/-- An action that writes a line and reports the error boom. -/
def failingAction : Action :=
  fun _ out => (out ++ "ran\n", some "boom")

/-- App demo with `failingAction` registered as its root action. -/
def demoFailing : App :=
  { demo with Action := some failingAction }

/-! ## Notions the statements use -/

/-- The context `parseArgs` allocates before its loop, for receiver `a`. -/
def initialContext (a : AppPtr) : Context :=
  { Command := none, Flags := [], Args := Slice.make, App := some a }

/-- The root help text for `a`: what `printHelp(nil)` writes on an empty
standard output. -/
def rootHelp (sty : Style) (a : App) : String :=
  a.printHelp sty none ""

/-- The resolver returns `r` on `args`: some number of loop tests suffices. -/
def Returns (a : AppPtr) (args : List String) (r : Context × Option Error) : Prop :=
  ∃ fuel, App.parseArgs fuel a args = some r

/-- App `a` has, among the top-level commands allocated in `heap`, the command
`c`, and `c` carries a flag named `n` that is marked required. -/
def CarriesRequired (heap : CmdPtr → Option Command) (a : App) (c : Command)
    (n : String) : Prop :=
  (∃ p, p ∈ a.Commands.toList ∧ (heap p).map (fun d => d.Name) = some c.Name) ∧
    ∃ f, f ∈ c.Flags.toList ∧ f.Name = n ∧ f.Required = true

/-- The usage line as the specification words it: the app name, the command
name when a command with a non-empty name is given, the FLAGS marker when the
app or the command has a flag, the SUBCOMMAND or COMMAND marker when the
command, or without a command the app, has children, and the ARGS marker. -/
def usageLine (a : App) (cmd : Option Command) : String :=
  a.Name
    ++ (match cmd with
        | some c => if c.Name = "" then "" else " " ++ c.Name
        | none => "")
    ++ (if a.Flags.toList.isEmpty && (match cmd with
          | some c => c.Flags.toList.isEmpty
          | none => true) then "" else " [FLAGS]")
    ++ (match cmd with
        | some c => if c.SubCommands.toList.isEmpty then "" else " [SUBCOMMAND]"
        | none => if a.Commands.toList.isEmpty then "" else " [COMMAND]")
    ++ " [ARGS...]"

/-- The title the header opens with, as the specification words it: the
decorated app name, then the version behind " v" when there is one. -/
def headerTitle (a : App) : String :=
  "📦 " ++ a.Name ++ (if a.Version = "" then "" else " v" ++ a.Version)

/-- The description the header shows, as the specification words it: the long
description of the command when there is one, else the description of the
app; the empty string stands for no description. -/
def shownDescription (a : App) (cmd : Option Command) : String :=
  match cmd with
  | some c => if c.Long = "" then a.Description else c.Long
  | none => a.Description

/-- The USAGE block of the help text under the styling `sty`: its heading in
bold and the usage line indented by two spaces, closed by a blank line. -/
def usageBlock (sty : Style) (a : App) (cmd : Option Command) : String :=
  sty.Bold "⚡ USAGE:" ++ "\n" ++ ("  " ++ a.formatUsage sty cmd) ++ "\n" ++ "\n"

/-- The EXAMPLE block of the help text under the styling `sty`: its heading in
bold and, in green, the example indented by two spaces, closed by a blank
line; empty when no command is given or the command has no example. -/
def exampleBlock (sty : Style) (cmd : Option Command) : String :=
  match cmd with
  | some c =>
    if c.Example = "" then ""
    else sty.Bold "💡 EXAMPLE:" ++ "\n" ++ sty.FgGreen ("  " ++ c.Example) ++ "\n" ++ "\n"
  | none => ""

/-! ## Commands by value -/

/-- The allocated commands by value: the pointee of each address, `none`
where no command is allocated (a dereference there is a nil-pointer panic). -/
abbrev CmdHeap := CmdPtr → Option Command

/-- The heap after the assignment of `c` to the pointee of `p`. -/
def CmdHeap.store (h : CmdHeap) (p : CmdPtr) (c : Command) : CmdHeap :=
  fun q => if q = p then some c else h q

/-- The names of the allocated commands among the children `kids`, in order. -/
def childNames (h : CmdHeap) (kids : Slice CmdPtr) : List String :=
  kids.toList.filterMap (fun p => (h p).map (fun d => d.Name))

/-- A second command named greet. -/
def greetTwin : Command :=
  NewCommand "greet" "Greets again" ""

/-- The address at which `greetTwin` is allocated. -/
def greetTwinPtr : CmdPtr := 1

/-- A command tools whose only child is greet. -/
def tools : Command :=
  { NewCommand "tools" "Tools" "" with SubCommands := Slice.make.append greetPtr }

/-- The address at which `tools` is allocated. -/
def toolsPtr : CmdPtr := 2

/-- The commands greet, its twin and tools, each at its address. -/
def twinHeap : CmdHeap :=
  CmdHeap.store (CmdHeap.store demoHeap greetTwinPtr greetTwin) toolsPtr tools

/-! ## Commands in memory -/

/-- The address of a backing array of command pointers. -/
abbrev ArrPtr := Nat

/-- A slice of command pointers as a struct field holds it: `nil`, or the
window of `len` cells from cell `off` of the backing array `arr`, which
`append` may extend in place up to `cap` cells. -/
inductive SliceHdr where
  | nil : SliceHdr
  | window (arr : ArrPtr) (off len cap : Nat) : SliceHdr
  deriving DecidableEq, Repr

namespace SliceHdr

/-- Go `len(s)`. -/
def len : SliceHdr → Nat
  | nil => 0
  | window _ _ l _ => l

/-- Go `cap(s)`. -/
def cap : SliceHdr → Nat
  | nil => 0
  | window _ _ _ k => k

end SliceHdr

/-- The struct `Command` as it lies in memory: the field `SubCommands` is a
slice header, its elements lie in a backing array. The flags are kept by
value: no array of flag pointers can be an array of command pointers. -/
structure StoredCommand where
  Name : String := ""
  Short : String := ""
  Long : String := ""
  Usage : String := ""
  Example : String := ""
  Action : Option Action := none
  Flags : Slice Flag := Slice.nil
  SubCommands : SliceHdr := SliceHdr.nil
  Parent : Option CmdPtr := none

/-- The memory the registration functions work on: the allocated commands
and the cells of the backing arrays (`none` is a nil pointer). -/
structure Mem where
  cmds : CmdPtr → Option StoredCommand
  arrs : ArrPtr → Nat → Option CmdPtr

/-- Go `s[i]`: cell `i` of the window. -/
def Mem.cell (m : Mem) : SliceHdr → Nat → Option CmdPtr
  | SliceHdr.nil, _ => none
  | SliceHdr.window arr off _ _, i => m.arrs arr (off + i)

/-- The elements seen through the slice `s`, in order. -/
def Mem.elems (m : Mem) (s : SliceHdr) : List (Option CmdPtr) :=
  (List.range s.len).map (m.cell s)

/-- What the run time supplies when `append` has to grow a slice: the address
of the new backing array, one that no slice in use lies on, and the capacity
it chooses. -/
structure Alloc where
  fresh : ArrPtr
  cap : Nat

/-- The case of Go `append(s, x)` with no spare capacity: the elements are
copied to the new array, `x` is written behind them, the other cells of the
new array are nil. -/
def Mem.grow (m : Mem) (al : Alloc) (s : SliceHdr) (x : Option CmdPtr) : Mem × SliceHdr :=
  ({ m with
      arrs := fun a i =>
        if a = al.fresh then
          (if i < s.len then m.cell s i else if i = s.len then x else none)
        else m.arrs a i },
    SliceHdr.window al.fresh 0 (s.len + 1) (max al.cap (s.len + 1)))

/-- Go `append(s, x)` on a slice of command pointers: with spare capacity `x`
is written into the cell behind the window, in the backing array itself;
without, the slice grows into a new array. -/
def Mem.append (m : Mem) (al : Alloc) (s : SliceHdr) (x : Option CmdPtr) : Mem × SliceHdr :=
  match s with
  | SliceHdr.window arr off len cap =>
    if len < cap then
      ({ m with arrs := fun a i => if a = arr ∧ i = off + len then x else m.arrs a i },
        SliceHdr.window arr off (len + 1) cap)
    else m.grow al s x
  | SliceHdr.nil => m.grow al s x

/-- Go `(*Command).AddSubCommand`: the receiver `c` and the argument `sub` are
pointers into `m`. First `sub.Parent = c`, then
`c.SubCommands = append(c.SubCommands, sub)`; `none` is the panic of a
dereference of an unallocated pointer. -/
def Command.AddSubCommand (m : Mem) (al : Alloc) (c sub : CmdPtr) : Option Mem :=
  match m.cmds sub with
  | none => none
  | some s =>
    let m1 : Mem :=
      { m with cmds := fun p => if p = sub then some { s with Parent := some c } else m.cmds p }
    match m1.cmds c with
    | none => none
    | some r =>
      let res := m1.append al r.SubCommands (some sub)
      some { res.1 with
        cmds := fun p => if p = c then some { r with SubCommands := res.2 } else res.1.cmds p }

/-- The command stored as `s`, by value: its children are the elements seen
through its slice header (nil pointers left out). -/
def Mem.view (m : Mem) (s : StoredCommand) : Command :=
  { Name := s.Name, Short := s.Short, Long := s.Long, Usage := s.Usage,
    Example := s.Example, Action := s.Action, Flags := s.Flags,
    SubCommands :=
      match s.SubCommands with
      | SliceHdr.nil => Slice.nil
      | SliceHdr.window arr off len cap =>
        Slice.mk (m.elems (SliceHdr.window arr off len cap)).reduceOption,
    Parent := s.Parent }

/-- The allocated commands of `m`, by value. -/
def Mem.load (m : Mem) : CmdHeap :=
  fun p => (m.cmds p).map m.view

/-- The names of the children of the command at `c`, in order. -/
def Mem.kidNames (m : Mem) (c : CmdPtr) : List String :=
  match m.load c with
  | some v => childNames m.load v.SubCommands
  | none => []

/-- The command `v` as stored, with `hdr` for its children. -/
def Command.storeAs (v : Command) (hdr : SliceHdr) : StoredCommand :=
  { Name := v.Name, Short := v.Short, Long := v.Long, Usage := v.Usage,
    Example := v.Example, Action := v.Action, Flags := v.Flags,
    SubCommands := hdr, Parent := v.Parent }

/-- A memory with greet, its twin and tools: every command has a backing
array of its own, and the one of tools is full with its child greet. -/
def twinMem : Mem :=
  { cmds := fun p =>
      if p = greetPtr then some (greet.storeAs (SliceHdr.window 10 0 0 0))
      else if p = greetTwinPtr then some (greetTwin.storeAs (SliceHdr.window 11 0 0 0))
      else if p = toolsPtr then some (tools.storeAs (SliceHdr.window 12 0 1 1))
      else none,
    arrs := fun a i => if a = 12 ∧ i = 0 then some greetPtr else none }

/-- A memory in which the twin of greet holds a slice on the backing array of
the children of tools: tools sees one cell of two, the twin sees both. -/
def sharedMem : Mem :=
  { cmds := fun p =>
      if p = greetPtr then some (greet.storeAs (SliceHdr.window 10 0 0 0))
      else if p = greetTwinPtr then some (greetTwin.storeAs (SliceHdr.window 12 0 2 2))
      else if p = toolsPtr then some (tools.storeAs (SliceHdr.window 12 0 1 2))
      else none,
    arrs := fun a i => if a = 12 ∧ i = 0 then some greetPtr else none }

/-- The new array and capacity the run time hands out in the scenarios. -/
def scenarioAlloc : Alloc :=
  { fresh := 20, cap := 4 }

/-- App demo with a description, for the header. -/
def demoDescribed : App :=
  { demo with Description := "A demo" }

/-! ## Lemmas on the loop and on standard output -/

/-- A pass through the loop body that does not return leaves the cursor where
it was. -/
theorem parseArgsStep_next (ctx : Context) (args : List String) (i j : Nat)
    (h : parseArgsStep ctx args i = LoopStep.next j) : j = i := by
  unfold parseArgsStep at h
  split at h
  · dsimp only at h
    split at h
    · exact LoopStep.noConfusion h
    · injection h with h
      exact h.symm
  · exact LoopStep.noConfusion h

/-- Once a pass ends without returning, no amount of fuel makes the loop
return. -/
theorem parseArgsLoop_stuck (ctx : Context) (args : List String) (i : Nat)
    (h : parseArgsStep ctx args i = LoopStep.next i) :
    ∀ fuel, parseArgsLoop ctx args fuel i = none := by
  intro fuel
  induction fuel with
  | zero => rfl
  | succ n ih => simp only [parseArgsLoop, h, ih]

/-- Whatever the loop returns, the context is the one it was started with. -/
theorem parseArgsLoop_ctx (ctx : Context) (args : List String) :
    ∀ (fuel i : Nat) (c : Context) (e : Option Error),
      parseArgsLoop ctx args fuel i = some (c, e) → c = ctx := by
  intro fuel
  induction fuel with
  | zero => intro i c e h; simp [parseArgsLoop] at h
  | succ n ih =>
    intro i c e h
    unfold parseArgsLoop at h
    split at h
    · rename_i c0 e0 hstep
      simp only [Option.some.injEq, Prod.mk.injEq] at h
      unfold parseArgsStep at hstep
      split at hstep
      · dsimp only at hstep
        split at hstep
        · injection hstep with h1 h2
          rw [← h.1, h1]
        · exact LoopStep.noConfusion hstep
      · injection hstep with h1 h2
        rw [← h.1, h1]
    · exact ih _ c e h

/-- A first token that is not a help token makes the first pass end without
returning. -/
theorem parseArgsStep_head (ctx : Context) (t : String) (ts : List String)
    (h : isHelpToken t = false) :
    parseArgsStep ctx (t :: ts) 0 = LoopStep.next 0 := by
  simp [parseArgsStep, h]

/-- A first token that is a help token makes the first pass return the help
signal. -/
theorem parseArgsStep_help (ctx : Context) (t : String) (ts : List String)
    (h : isHelpToken t = true) :
    parseArgsStep ctx (t :: ts) 0 = LoopStep.ret ctx (some "help_requested") := by
  simp [parseArgsStep, h]

/-- The function `printHelp` only appends to standard output. -/
theorem printHelp_append (sty : Style) (a : App) (cmd : Option Command) (out : String) :
    a.printHelp sty cmd out = out ++ a.printHelp sty cmd "" := by
  unfold App.printHelp println print
  cases cmd with
  | none => simp only [String.append_assoc, String.empty_append]
  | some c =>
    by_cases hc : c.Example ≠ ""
    · simp only [if_pos hc, String.append_assoc, String.empty_append]
    · simp only [if_neg hc, String.append_assoc, String.empty_append]

/-- A pass through the loop, at any cursor, either goes on or returns the
context it was given. -/
theorem parseArgsStep_keeps (ctx : Context) (args : List String) (i : Nat) :
    (∃ j, parseArgsStep ctx args i = LoopStep.next j) ∨
      ∃ e, parseArgsStep ctx args i = LoopStep.ret ctx e := by
  unfold parseArgsStep
  split
  · dsimp only
    split
    · exact Or.inr ⟨_, rfl⟩
    · exact Or.inl ⟨_, rfl⟩
  · exact Or.inr ⟨_, rfl⟩

/-- After any number of passes the variable `ctx` is the context the loop was
started on. -/
theorem parseArgsState_ctx (ctx : Context) (args : List String) (n : Nat) :
    (parseArgsState ctx args n).1 = ctx := by
  induction n with
  | zero => rfl
  | succ k ih =>
    simp only [parseArgsState]
    rcases parseArgsStep_keeps (parseArgsState ctx args k).1 args
      (parseArgsState ctx args k).2 with ⟨j, hj⟩ | ⟨e, he⟩
    · rw [hj]
      exact ih
    · rw [he]
      exact ih

/-- What `parseArgs` has returned, if anything, carries the initial context. -/
theorem parseArgs_result (fuel : Nat) (a : AppPtr) (args : List String) :
    App.parseArgs fuel a args = none ∨
      ∃ e, App.parseArgs fuel a args = some (initialContext a, e) := by
  cases hr : App.parseArgs fuel a args with
  | none => exact Or.inl rfl
  | some r =>
    have hctx : r.1 = initialContext a := parseArgsLoop_ctx _ _ fuel 0 r.1 r.2 hr
    refine Or.inr ⟨r.2, ?_⟩
    rw [← hctx]

/-! ## Resolver progress -/

/-- C1 (the code at the failing input). On the one-token sequence greet the
first pass through the loop of `parseArgs` ends with the cursor still at 0,
and the loop never returns: for every amount of fuel the resolver is still
running. The cursor is not advanced, so the bound of N iterations fails. -/
theorem parseArgs_greet_no_progress (a : AppPtr) :
    parseArgsStep (initialContext a) ["greet"] 0 = LoopStep.next 0 ∧
      ∀ fuel, App.parseArgs fuel a ["greet"] = none := by
  have hstep : parseArgsStep (initialContext a) ["greet"] 0 = LoopStep.next 0 :=
    parseArgsStep_head _ _ _ (by decide)
  exact ⟨hstep, fun fuel => parseArgsLoop_stuck _ _ _ hstep fuel⟩

/-! ## Bare invocation -/

/-- C2. For every app and every argument list of length 0 or 1, `Run` returns
nil and appends exactly the root help text to standard output; the list is
only measured, so the result is defined without a second element. -/
theorem Run_bare (sty : Style) (a : App) (args : List String) (out : String)
    (h : args.length < 2) :
    a.Run sty args out = (out ++ rootHelp sty a, none) := by
  unfold App.Run rootHelp
  rw [if_pos h, printHelp_append]

/-- Witness of C2: the app with no registered command, invoked with the
program name alone. -/
theorem Run_bare_witness :
    ["demo"].length < 2 ∧
      NewApp.Run Style.plain ["demo"] "" = ("" ++ rootHelp Style.plain NewApp, none) :=
  ⟨by decide, Run_bare Style.plain NewApp ["demo"] "" (by decide)⟩

/-! ## Flag tokens -/

/-- C3, counterexample. In the scenario of the specification the resolver
never returns, on the tokens greet, --name, Ana, a context whose command is
greet, whose flags send name to Ana and whose positionals are empty. -/
theorem parseArgs_round_trip_fails :
    ¬ ∃ ctx err, Returns 0 [greet.Name, "--" ++ "name", "Ana"] (ctx, err) ∧
        ctx.Command = some greetPtr ∧
        ctx.Flags.lookup "name" = some (Any.str "Ana") ∧
        ctx.Args.toList = [] := by
  rintro ⟨ctx, err, ⟨fuel, hret⟩, -⟩
  have hstuck := parseArgsLoop_stuck (initialContext 0)
    [greet.Name, "--" ++ "name", "Ana"] 0 (parseArgsStep_head _ _ _ (by decide)) fuel
  have hnone : App.parseArgs fuel 0 [greet.Name, "--" ++ "name", "Ana"] = none := hstuck
  rw [hnone] at hret
  exact Option.noConfusion hret

/-- C3, amended. Flag tokens are not recorded. For every app, command `c`,
flag name `n` and value `v`, on the tokens `c.Name`, `--n`, `v`: after any
number of passes through the loop the context the resolver holds has no
command, an empty flag map (no entry for `n`) and no positional, and its app
is the receiver; a pass at any cursor, the cursor on the flag token or on its
value included, either goes on or returns the context it was given; and what
the resolver has returned, if anything, carries the initial context. -/
theorem parseArgs_records_no_flag (a : AppPtr) (c : Command) (n v : String)
    (k i fuel : Nat) (ctx : Context) :
    ((parseArgsState (initialContext a) [c.Name, "--" ++ n, v] k).1.Command = none ∧
        (parseArgsState (initialContext a) [c.Name, "--" ++ n, v] k).1.Flags = [] ∧
        (parseArgsState (initialContext a) [c.Name, "--" ++ n, v] k).1.Flags.lookup n = none ∧
        (parseArgsState (initialContext a) [c.Name, "--" ++ n, v] k).1.Args = Slice.make ∧
        (parseArgsState (initialContext a) [c.Name, "--" ++ n, v] k).1.App = some a) ∧
      ((∃ j, parseArgsStep ctx [c.Name, "--" ++ n, v] i = LoopStep.next j) ∨
        ∃ e, parseArgsStep ctx [c.Name, "--" ++ n, v] i = LoopStep.ret ctx e) ∧
      (App.parseArgs fuel a [c.Name, "--" ++ n, v] = none ∨
        ∃ e, App.parseArgs fuel a [c.Name, "--" ++ n, v] = some (initialContext a, e)) := by
  refine ⟨?_, parseArgsStep_keeps _ _ _, parseArgs_result _ _ _⟩
  rw [parseArgsState_ctx]
  exact ⟨rfl, rfl, rfl, rfl, rfl⟩

/-- Witness of C3, amended: the scenario of the specification, after three
passes, with a pass at cursor 1, on the flag token --name. -/
theorem parseArgs_records_no_flag_witness :
    ((parseArgsState (initialContext 0) [greet.Name, "--" ++ "name", "Ana"] 3).1.Command
          = none ∧
        (parseArgsState (initialContext 0) [greet.Name, "--" ++ "name", "Ana"] 3).1.Flags
          = [] ∧
        (parseArgsState (initialContext 0) [greet.Name, "--" ++ "name", "Ana"] 3).1.Flags.lookup
          "name" = none ∧
        (parseArgsState (initialContext 0) [greet.Name, "--" ++ "name", "Ana"] 3).1.Args
          = Slice.make ∧
        (parseArgsState (initialContext 0) [greet.Name, "--" ++ "name", "Ana"] 3).1.App
          = some 0) ∧
      ((∃ j, parseArgsStep (initialContext 0) [greet.Name, "--" ++ "name", "Ana"] 1
          = LoopStep.next j) ∨
        ∃ e, parseArgsStep (initialContext 0) [greet.Name, "--" ++ "name", "Ana"] 1
          = LoopStep.ret (initialContext 0) e) ∧
      (App.parseArgs 3 0 [greet.Name, "--" ++ "name", "Ana"] = none ∨
        ∃ e, App.parseArgs 3 0 [greet.Name, "--" ++ "name", "Ana"]
          = some (initialContext 0, e)) :=
  parseArgs_records_no_flag 0 greet "name" "Ana" 3 1 3 (initialContext 0)

/-! ## Required flags and action dispatch -/

/-- C4, counterexample. In the scenario of the specification, where greet
carries the required flag name, `Run` on demo, greet returns no error. -/
theorem Run_missing_required_fails :
    CarriesRequired demoHeap demo greet "name" ∧
      ¬ ∃ e : Error, (demo.Run Style.plain ["demo", greet.Name] "").2 = some e := by
  refine ⟨⟨⟨greetPtr, by decide, by decide⟩,
    ⟨StringFlag "name" "n" "who to greet" true, by decide, by decide, by decide⟩⟩, ?_⟩
  rintro ⟨e, he⟩
  have hnil : (demo.Run Style.plain ["demo", greet.Name] "").2 = none := by
    unfold App.Run
    split <;> rfl
  rw [hnil] at he
  exact Option.noConfusion he

/-- C4, amended. For every app with a command `c` that carries a required
flag `n`, whatever the allocated commands and their actions, `Run` on the
program name and `c.Name` returns nil and appends exactly the root help text
to standard output: required flags are not checked and no action runs. -/
theorem Run_required_not_checked (sty : Style) (heap : CmdPtr → Option Command)
    (a : App) (c : Command) (n prog out : String)
    (_h : CarriesRequired heap a c n) :
    a.Run sty [prog, c.Name] out = (out ++ rootHelp sty a, none) := by
  unfold App.Run rootHelp
  rw [if_neg (by simp), printHelp_append]

/-- Witness of C4, amended: the scenario of the specification. -/
theorem Run_required_not_checked_witness :
    CarriesRequired demoHeap demo greet "name" ∧
      demo.Run Style.plain ["demo", greet.Name] ""
        = ("" ++ rootHelp Style.plain demo, none) :=
  have h : CarriesRequired demoHeap demo greet "name" :=
    ⟨⟨greetPtr, by decide, by decide⟩,
      ⟨StringFlag "name" "n" "who to greet" true, by decide, by decide, by decide⟩⟩
  ⟨h, Run_required_not_checked Style.plain demoHeap demo greet "name" "demo" "" h⟩

/-- C5, counterexample. App demo with a root action that reports the error
boom, on the tokens demo, x (x names no command): the error `Run` returns is
not the one the action reports, on any context and standard output. -/
theorem Run_dispatch_fails :
    demoFailing.Action = some failingAction ∧
      ¬ ∃ ctx out, (demoFailing.Run Style.plain ["demo", "x"] "").2
          = (failingAction ctx out).2 := by
  refine ⟨rfl, ?_⟩
  rintro ⟨ctx, out, h⟩
  have hnil : (demoFailing.Run Style.plain ["demo", "x"] "").2 = none := by
    unfold App.Run
    split <;> rfl
  rw [hnil] at h
  exact Option.noConfusion h

/-- C5, amended. For every app, every root action `f` registered on it and
every argument list of length at least 2, `Run` returns nil and appends to
standard output exactly the root help text of the app, which does not depend
on `f`: the root action is not invoked and its result is not returned. -/
theorem Run_ignores_root_action (sty : Style) (a : App) (f : Action)
    (args : List String) (out : String) (h : 2 ≤ args.length) :
    ({ a with Action := some f }).Run sty args out = (out ++ rootHelp sty a, none) := by
  unfold App.Run
  rw [if_neg (by omega), printHelp_append]
  rfl

/-- Witness of C5, amended: demo with the failing root action. -/
theorem Run_ignores_root_action_witness :
    2 ≤ ["demo", "x"].length ∧
      ({ demo with Action := some failingAction }).Run Style.plain ["demo", "x"] ""
        = ("" ++ rootHelp Style.plain demo, none) :=
  ⟨by decide, Run_ignores_root_action Style.plain demo failingAction ["demo", "x"] "" (by decide)⟩

/-! ## Help requests -/

/-- C6 (the code at the failing input). On the tokens greet, --help, where a
help token stands at position 1 behind a token that raises no error, the
resolver never returns: it is still running for every amount of fuel, so it
does not return the help signal. -/
theorem parseArgs_help_behind_token (a : AppPtr) :
    isHelpToken "--help" = true ∧
      ∀ fuel, App.parseArgs fuel a ["greet", "--help"] = none :=
  ⟨by decide, fun fuel =>
    parseArgsLoop_stuck (initialContext a) ["greet", "--help"] 0
      (parseArgsStep_head _ _ _ (by decide)) fuel⟩

/-- C7. For every app and program name `p`, `Run` on `p`, --help returns nil
and appends exactly the root help text to standard output; and the resolver,
on the single token --help, returns at its first test the help signal with a
context that has no command. -/
theorem Run_root_help (sty : Style) (a : App) (p out : String) (ptr : AppPtr)
    (fuel : Nat) :
    a.Run sty [p, "--help"] out = (out ++ rootHelp sty a, none) ∧
      App.parseArgs (fuel + 1) ptr ["--help"]
        = some (initialContext ptr, some "help_requested") ∧
      (initialContext ptr).Command = none := by
  refine ⟨?_, ?_, rfl⟩
  · unfold App.Run rootHelp
    rw [if_neg (by simp), printHelp_append]
  · have hstep := parseArgsStep_help (initialContext ptr) "--help" [] (by decide)
    simp only [App.parseArgs, parseArgsLoop]
    show (match parseArgsStep (initialContext ptr) ["--help"] 0 with
      | LoopStep.ret c e => some (c, e)
      | LoopStep.next j => parseArgsLoop (initialContext ptr) ["--help"] fuel j) = _
    rw [hstep]

/-! ## Help text -/

/-- C8. With styling as the identity, for every app and optional command the
result of `formatUsage` is the usage line of the specification: the app name,
the command name behind a space when a command with a non-empty name is given,
the FLAGS marker exactly when the app or the given command has a flag, the
SUBCOMMAND marker when the given command has a subcommand or the COMMAND
marker when no command is given and the app has one, and the ARGS marker; in
particular it ends with the ARGS marker. -/
theorem formatUsage_line (a : App) (cmd : Option Command) :
    a.formatUsage Style.plain cmd = usageLine a cmd ∧
      "[ARGS...]".data <:+ (a.formatUsage Style.plain cmd).data := by
  have heq : a.formatUsage Style.plain cmd = usageLine a cmd := by
    unfold App.formatUsage usageLine Style.plain Slice.len
    cases cmd with
    | none =>
      cases hf : a.Flags.toList <;> cases hc : a.Commands.toList <;>
        simp [String.append_assoc, hf, hc]
    | some c =>
      by_cases hn : c.Name = "" <;>
      cases hf : a.Flags.toList <;> cases hg : c.Flags.toList <;>
        cases hc : c.SubCommands.toList <;>
        simp [String.append_assoc, hn, hf, hg, hc]
  refine ⟨heq, ?_⟩
  rw [heq]
  unfold usageLine
  rw [String.data_append]
  exact List.IsSuffix.trans (show "[ARGS...]".data <:+ " [ARGS...]".data by decide)
    (List.suffix_append _ _)


/-- C9, counterexample. For app demo the header is the glyph, a space, demo,
the version and a line break: it does not start with the app name. -/
theorem formatHeader_not_name_first :
    demo.Name = "demo" ∧
      demo.formatHeader Style.plain none = "📦 demo v1.0.0\n" ∧
      ¬ (demo.Name.data <+: (demo.formatHeader Style.plain none).data) := by
  decide

/-- C9, amended. With styling as the identity, for every app and optional
command the header is the glyph and a space, then the app name, then " v" and
the version exactly when the version is non-empty, then a line break, then the
description: the long description of the command when a command with a
non-empty one is given, else the description of the app; behind the
description come at most two closing characters, and nothing at all follows
the title line when there is no description. -/
theorem formatHeader_content (a : App) (cmd : Option Command) :
    ∃ tail : String,
      a.formatHeader Style.plain cmd
        = headerTitle a ++ "\n" ++ shownDescription a cmd ++ tail ∧
      tail.length ≤ 2 ∧ (shownDescription a cmd = "" → tail = "") := by
  unfold App.formatHeader headerTitle shownDescription Style.plain
  by_cases hv : a.Version = ""
  · cases cmd with
    | none =>
      by_cases hd : a.Description = ""
      · exact ⟨"", by simp [hv, hd], by decide, fun _ => rfl⟩
      · exact ⟨"/n", by simp [hv, hd, String.append_assoc], by decide, fun h => absurd h hd⟩
    | some c =>
      by_cases hl : c.Long = ""
      · by_cases hd : a.Description = ""
        · exact ⟨"", by simp [hv, hd, hl], by decide, fun _ => rfl⟩
        · exact ⟨"/n", by simp [hv, hd, hl, String.append_assoc], by decide,
            fun h => absurd (by simp only [if_pos hl] at h; exact h) hd⟩
      · exact ⟨"/n", by simp [hv, hl, String.append_assoc], by decide,
          fun h => absurd (by simp only [if_neg hl] at h; exact h) hl⟩
  · cases cmd with
    | none =>
      by_cases hd : a.Description = ""
      · exact ⟨"", by simp [hv, hd, String.append_assoc], by decide, fun _ => rfl⟩
      · exact ⟨"/n", by simp [hv, hd, String.append_assoc], by decide, fun h => absurd h hd⟩
    | some c =>
      by_cases hl : c.Long = ""
      · by_cases hd : a.Description = ""
        · exact ⟨"", by simp [hv, hd, hl, String.append_assoc], by decide, fun _ => rfl⟩
        · exact ⟨"/n", by simp [hv, hd, hl, String.append_assoc], by decide,
            fun h => absurd (by simp only [if_pos hl] at h; exact h) hd⟩
      · exact ⟨"/n", by simp [hv, hl, String.append_assoc], by decide,
          fun h => absurd (by simp only [if_neg hl] at h; exact h) hl⟩

/-- An EXAMPLE block is not the empty text, whatever the styling returns. -/
theorem exampleBlock_ne (x y : String) :
    x ++ "\n" ++ y ++ "\n" ++ "\n" ≠ "" := by
  intro h
  have hlen := congrArg String.length h
  simp only [String.length_append] at hlen
  have h1 : "\n".length = 1 := by decide
  have h0 : "".length = 0 := rfl
  omega

/-- C10. For every styling, app and optional command, `printHelp` appends to
standard output, in this order, a blank line, the header, a blank line, the
USAGE block (heading, then the usage line indented by two spaces) and the
EXAMPLE block; the EXAMPLE block is non-empty exactly when a command with a
non-empty example is given, and it then holds the heading and the example
indented by two spaces. With styling as the identity the headings and the
example stand in the output as they are. -/
theorem printHelp_layout (sty : Style) (a : App) (cmd : Option Command) (out : String) :
    a.printHelp sty cmd out
        = out ++ "\n" ++ a.formatHeader sty cmd ++ "\n"
            ++ usageBlock sty a cmd ++ exampleBlock sty cmd ∧
      usageBlock sty a cmd
        = sty.Bold "⚡ USAGE:" ++ "\n" ++ ("  " ++ a.formatUsage sty cmd) ++ "\n" ++ "\n" ∧
      (exampleBlock sty cmd ≠ "" ↔ ∃ c, cmd = some c ∧ c.Example ≠ "") ∧
      (∀ c, cmd = some c → c.Example ≠ "" →
        exampleBlock sty cmd
          = sty.Bold "💡 EXAMPLE:" ++ "\n" ++ sty.FgGreen ("  " ++ c.Example) ++ "\n" ++ "\n") ∧
      (∀ c, cmd = some c → c.Example ≠ "" →
        exampleBlock Style.plain cmd
          = "💡 EXAMPLE:" ++ "\n" ++ ("  " ++ c.Example) ++ "\n" ++ "\n") ∧
      usageBlock Style.plain a cmd
        = "⚡ USAGE:" ++ "\n" ++ ("  " ++ a.formatUsage Style.plain cmd) ++ "\n" ++ "\n" := by
  refine ⟨?_, rfl, ?_, ?_, ?_, rfl⟩
  · unfold App.printHelp println print usageBlock exampleBlock
    cases cmd with
    | none => simp only [String.append_assoc, String.append_empty, String.empty_append]
    | some c =>
      by_cases he : c.Example = ""
      · simp only [he, ne_eq, not_true_eq_false, if_false, if_true, String.append_assoc,
          String.append_empty, String.empty_append]
      · simp only [he, ne_eq, not_false_eq_true, if_false, if_true, String.append_assoc,
          String.empty_append]
  · cases cmd with
    | none => simp [exampleBlock]
    | some c =>
      by_cases he : c.Example = ""
      · simp [exampleBlock, he]
      · simp only [exampleBlock, if_neg he]
        exact ⟨fun _ => ⟨c, rfl, he⟩, fun _ => exampleBlock_ne _ _⟩
  · intro c hc he
    subst hc
    simp only [exampleBlock, if_neg he]
  · intro c hc he
    subst hc
    simp only [exampleBlock, if_neg he, Style.plain, id]

/-! ## Registration -/

/-- The names among children to which one allocated child is appended. -/
theorem childNames_append (h : CmdHeap) (kids : List CmdPtr) (p : CmdPtr) (d : Command)
    (hp : h p = some d) :
    childNames h (Slice.mk (kids ++ [p])) = childNames h (Slice.mk kids) ++ [d.Name] := by
  simp [childNames, Slice.toList, List.filterMap_append, hp]

/-- C12, counterexample. App demo has the single child greet; `AddCommand`
of a second command named greet returns normally and leaves two children
named greet. -/
theorem AddCommand_accepts_duplicate :
    (childNames twinHeap demo.Commands).Nodup ∧
      (twinHeap greetTwinPtr).map (fun d => d.Name) = some "greet" ∧
      "greet" ∈ childNames twinHeap demo.Commands ∧
      (demo.AddCommand greetTwinPtr).Commands.toList = [greetPtr, greetTwinPtr] ∧
      ¬ (childNames twinHeap (demo.AddCommand greetTwinPtr).Commands).Nodup := by
  decide

/-- A window one cell longer, whose earlier cells read as before. -/
theorem range_map_snoc (f g : Nat → Option CmdPtr) (n : Nat) (x : Option CmdPtr)
    (hfg : ∀ i, i < n → g i = f i) (hx : g n = x) :
    (List.range (n + 1)).map g = (List.range n).map f ++ [x] := by
  rw [List.range_succ, List.map_append, List.map_cons, List.map_nil, hx]
  congr 1
  apply List.map_congr_left
  intro i hi
  exact hfg i (List.mem_range.mp hi)

/-- The elements seen through the slice `append` returns: the earlier ones,
then the new one. -/
theorem Mem.append_elems (m : Mem) (al : Alloc) (s : SliceHdr) (x : Option CmdPtr) :
    (m.append al s x).1.elems (m.append al s x).2 = m.elems s ++ [x] := by
  have hgrow : (m.grow al s x).1.elems (m.grow al s x).2 = m.elems s ++ [x] := by
    show (List.range (s.len + 1)).map
        (fun i => if al.fresh = al.fresh then
          (if 0 + i < s.len then m.cell s (0 + i) else if 0 + i = s.len then x else none)
          else m.arrs al.fresh (0 + i)) = (List.range s.len).map (m.cell s) ++ [x]
    apply range_map_snoc
    · intro i hi
      simp [hi]
    · simp
  cases s with
  | nil => exact hgrow
  | window arr off len cap =>
    by_cases hlt : len < cap
    · simp only [Mem.append, if_pos hlt]
      show (List.range (len + 1)).map
          (fun i => if arr = arr ∧ off + i = off + len then x else m.arrs arr (off + i))
          = (List.range len).map (fun i => m.arrs arr (off + i)) ++ [x]
      apply range_map_snoc
      · intro i hi
        have hne : ¬ (off + i = off + len) := by omega
        simp [hne]
      · simp
    · simp only [Mem.append, if_neg hlt]
      exact hgrow

/-- The cells `append` leaves as they are: every cell of every array but the
new one, except the cell behind the window of `s`. -/
theorem Mem.append_frame (m : Mem) (al : Alloc) (s : SliceHdr) (x : Option CmdPtr)
    (a : ArrPtr) (i : Nat) (hfresh : a ≠ al.fresh)
    (hcell : ∀ o l k, s = SliceHdr.window a o l k → i ≠ o + l) :
    (m.append al s x).1.arrs a i = m.arrs a i := by
  have hgrow : (m.grow al s x).1.arrs a i = m.arrs a i := by
    simp only [Mem.grow, if_neg hfresh]
  cases s with
  | nil => exact hgrow
  | window arr off len cap =>
    by_cases hlt : len < cap
    · simp only [Mem.append, if_pos hlt]
      by_cases ha : a = arr
      · subst ha
        have hne : i ≠ off + len := hcell off len cap rfl
        simp [hne]
      · simp [ha]
    · simp only [Mem.append, if_neg hlt]
      exact hgrow

/-- The function `append` writes no command. -/
theorem Mem.append_cmds (m : Mem) (al : Alloc) (s : SliceHdr) (x : Option CmdPtr) :
    (m.append al s x).1.cmds = m.cmds := by
  cases s with
  | nil => rfl
  | window arr off len cap =>
    by_cases hlt : len < cap
    · simp only [Mem.append, if_pos hlt]
    · simp only [Mem.append, if_neg hlt, Mem.grow]

/-- What `AddSubCommand` leaves in memory when both pointers are allocated. -/
theorem AddSubCommand_result (m : Mem) (al : Alloc) (c sub : CmdPtr)
    (r s : StoredCommand) (hc : m.cmds c = some r) (hs : m.cmds sub = some s) :
    ∃ m' hdr, Command.AddSubCommand m al c sub = some m' ∧
      m'.cmds c = some { r with
        SubCommands := hdr,
        Parent := if c = sub then some c else r.Parent } ∧
      m'.elems hdr = m.elems r.SubCommands ++ [some sub] ∧
      m'.cmds sub = some { s with
        Parent := some c,
        SubCommands := if c = sub then hdr else s.SubCommands } ∧
      (∀ p, p ≠ c → p ≠ sub → m'.cmds p = m.cmds p) ∧
      ∀ a i, a ≠ al.fresh →
        (∀ o l k, r.SubCommands = SliceHdr.window a o l k → i ≠ o + l) →
        m'.arrs a i = m.arrs a i := by
  let m1 : Mem :=
    { m with cmds := fun p => if p = sub then some { s with Parent := some c } else m.cmds p }
  have hm1c : m1.cmds c
      = some { r with Parent := if c = sub then some c else r.Parent } := by
    by_cases hcs : c = sub
    · subst hcs
      rw [hc] at hs
      injection hs with hs
      subst hs
      simp only [m1, if_true]
    · simp only [m1, if_neg hcs, hc]
  let r1 : StoredCommand := { r with Parent := if c = sub then some c else r.Parent }
  let res := m1.append al r1.SubCommands (some sub)
  have hadd : Command.AddSubCommand m al c sub
      = some { res.1 with
          cmds := fun p => if p = c then some { r1 with SubCommands := res.2 }
            else res.1.cmds p } := by
    have h1 : (if c = sub then some ({ s with Parent := some c } : StoredCommand)
        else m.cmds c) = some r1 := hm1c
    unfold Command.AddSubCommand
    rw [hs]
    dsimp only
    rw [h1]
  refine ⟨_, res.2, hadd, ?_, ?_, ?_, ?_, ?_⟩
  · simp only [if_true, r1]
  · have h := Mem.append_elems m1 al r1.SubCommands (some sub)
    exact h
  · by_cases hcs : c = sub
    · subst hcs
      rw [hc] at hs
      injection hs with hs
      subst hs
      simp only [if_true, r1]
    · have hne : ¬ sub = c := fun e => hcs e.symm
      simp only [if_neg hne, if_neg hcs, Mem.append_cmds, res, m1, if_true]
  · intro p hp hps
    simp only [if_neg hp, Mem.append_cmds, res, m1, if_neg hps]
  · intro a i hfresh hcell
    exact Mem.append_frame m1 al r1.SubCommands (some sub) a i hfresh hcell

/-- The children of a stored command by value are the non-nil elements seen
through its header. -/
theorem Mem.view_children (m : Mem) (s : StoredCommand) :
    (m.view s).SubCommands.toList = (m.elems s.SubCommands).reduceOption := by
  unfold Mem.view
  cases s.SubCommands with
  | nil => rfl
  | window arr off len cap => rfl

/-- The function `AddSubCommand` changes no name. -/
theorem AddSubCommand_name (m m' : Mem) (al : Alloc) (c sub : CmdPtr)
    (hadd : Command.AddSubCommand m al c sub = some m') (p : CmdPtr) :
    (m'.load p).map (fun d => d.Name) = (m.load p).map (fun d => d.Name) := by
  cases hs : m.cmds sub with
  | none =>
    unfold Command.AddSubCommand at hadd
    rw [hs] at hadd
    exact Option.noConfusion hadd
  | some s =>
    cases hc : m.cmds c with
    | none =>
      unfold Command.AddSubCommand at hadd
      rw [hs] at hadd
      dsimp only at hadd
      by_cases hcs : c = sub
      · subst hcs
        rw [hc] at hs
        exact Option.noConfusion hs
      · rw [if_neg hcs, hc] at hadd
        exact Option.noConfusion hadd
    | some r =>
      obtain ⟨m2, hdr, hadd2, hc2, -, hs2, hframe, -⟩ :=
        AddSubCommand_result m al c sub r s hc hs
      rw [hadd] at hadd2
      injection hadd2 with hadd2
      subst hadd2
      by_cases hpc : p = c
      · subst hpc
        simp only [Mem.load, hc2, hc, Option.map_some', Mem.view]
      · by_cases hps : p = sub
        · subst hps
          simp only [Mem.load, hs2, hs, Option.map_some', Mem.view]
        · simp only [Mem.load, hframe p hpc hps]
          cases m.cmds p with
          | none => rfl
          | some q => simp only [Option.map_some', Mem.view]

/-- The names of the children of `c` after `AddSubCommand`: the earlier ones,
then the name of `sub`. -/
theorem AddSubCommand_kidNames (m : Mem) (al : Alloc) (c sub : CmdPtr)
    (r s : StoredCommand) (hc : m.cmds c = some r) (hs : m.cmds sub = some s) :
    ∃ m', Command.AddSubCommand m al c sub = some m' ∧
      (m'.load c).map (fun v => v.SubCommands.toList)
        = (m.load c).map (fun v => v.SubCommands.toList ++ [sub]) ∧
      m'.kidNames c = m.kidNames c ++ [s.Name] := by
  obtain ⟨m', hdr, hadd, hc', helems, -, -, -⟩ := AddSubCommand_result m al c sub r s hc hs
  have hkids : ∀ v', m'.load c = some v' →
      v'.SubCommands.toList = (m.view r).SubCommands.toList ++ [sub] := by
    intro v' hv'
    simp only [Mem.load, hc', Option.map_some', Option.some.injEq] at hv'
    rw [← hv', Mem.view_children, Mem.view_children]
    show (m'.elems hdr).reduceOption = _
    rw [helems, List.reduceOption_append]
    rfl
  have hnames : (fun p => (m'.load p).map (fun d => d.Name))
      = (fun p => (m.load p).map (fun d => d.Name)) :=
    funext (AddSubCommand_name m m' al c sub hadd)
  have hsub : (m.load sub).map (fun d => d.Name) = some s.Name := by
    simp only [Mem.load, hs, Option.map_some', Mem.view]
  obtain ⟨v', hl'⟩ : ∃ v', m'.load c = some v' := by
    simp only [Mem.load, hc', Option.map_some']
    exact ⟨_, rfl⟩
  have hl : m.load c = some (m.view r) := by
    simp only [Mem.load, hc, Option.map_some']
  refine ⟨m', hadd, ?_, ?_⟩
  · rw [hl', hl]
    simp only [Option.map_some']
    rw [hkids _ hl']
  · simp only [Mem.kidNames, hl', hl, childNames]
    rw [hkids _ hl', hnames, List.filterMap_append]
    simp [hsub]

/-- Names stay pairwise distinct behind an appended name exactly when they
were and the name is new. -/
theorem nodup_snoc_iff (l : List String) (x : String) :
    (l ++ [x]).Nodup ↔ l.Nodup ∧ x ∉ l := by
  rw [List.nodup_append]
  simp

/-- An append in place is seen through every slice on the same backing array:
in `sharedMem`, where the twin of greet holds both cells of the array on which
tools holds one, `AddSubCommand` of the twin under tools writes the second
cell; the slice header stored in the twin is as before, the second element
seen through it is not. -/
theorem AddSubCommand_shared_array :
    sharedMem.elems (SliceHdr.window 12 0 2 2) = [some greetPtr, none] ∧
      (Command.AddSubCommand sharedMem scenarioAlloc toolsPtr greetTwinPtr).map
          (fun m' => m'.elems (SliceHdr.window 12 0 2 2))
        = some [some greetPtr, some greetTwinPtr] ∧
      (Command.AddSubCommand sharedMem scenarioAlloc toolsPtr greetTwinPtr).map
          (fun m' => (m'.cmds greetTwinPtr).map (fun s => s.SubCommands))
        = some (some (SliceHdr.window 12 0 2 2)) := by
  decide

/-- C11. For every memory with commands allocated at `c` and at `sub`,
`AddSubCommand` returns, and afterwards: the children of `c`, seen through its
new slice, are its earlier children followed by `sub`; the parent of `sub` is
`c`; every other field of `c` and of `sub` is stored as before, and so is
every other command; and of the backing arrays in use no cell is written but
the one behind the earlier children of `c`. For every app, after `AddCommand`
the commands are the earlier ones followed by `cmd`, with the flags and every
other field of the app as before. -/
theorem registration_appends (m : Mem) (al : Alloc) (c sub : CmdPtr)
    (r s : StoredCommand) (a : App) (cmd : CmdPtr)
    (hc : m.cmds c = some r) (hs : m.cmds sub = some s) :
    (∃ m' hdr, Command.AddSubCommand m al c sub = some m' ∧
        m'.cmds c = some { r with
          SubCommands := hdr,
          Parent := if c = sub then some c else r.Parent } ∧
        m'.elems hdr = m.elems r.SubCommands ++ [some sub] ∧
        (m'.load c).map (fun v => v.SubCommands.toList)
          = (m.load c).map (fun v => v.SubCommands.toList ++ [sub]) ∧
        m'.cmds sub = some { s with
          Parent := some c,
          SubCommands := if c = sub then hdr else s.SubCommands } ∧
        (∀ p, p ≠ c → p ≠ sub → m'.cmds p = m.cmds p) ∧
        ∀ b i, b ≠ al.fresh →
          (∀ o l k, r.SubCommands = SliceHdr.window b o l k → i ≠ o + l) →
          m'.arrs b i = m.arrs b i) ∧
      ((a.AddCommand cmd).Commands = Slice.mk (a.Commands.toList ++ [cmd]) ∧
        (a.AddCommand cmd).Flags = a.Flags ∧
        (a.AddCommand cmd).Name = a.Name ∧
        (a.AddCommand cmd).Version = a.Version ∧
        (a.AddCommand cmd).Description = a.Description ∧
        (a.AddCommand cmd).Usage = a.Usage ∧
        (a.AddCommand cmd).Action = a.Action) := by
  refine ⟨?_, rfl, rfl, rfl, rfl, rfl, rfl, rfl⟩
  obtain ⟨m', hdr, hadd, hc', helems, hs', hcmds, hcells⟩ :=
    AddSubCommand_result m al c sub r s hc hs
  obtain ⟨m2, hadd2, hkids, -⟩ := AddSubCommand_kidNames m al c sub r s hc hs
  rw [hadd] at hadd2
  injection hadd2 with hadd2
  subst hadd2
  exact ⟨m', hdr, hadd, hc', helems, hkids, hs', hcmds, hcells⟩

/-- Witness of C11: the twin of greet registered under tools, whose backing
array is full, and on app demo. -/
theorem registration_appends_witness :
    (twinMem.cmds toolsPtr = some (tools.storeAs (SliceHdr.window 12 0 1 1)) ∧
        twinMem.cmds greetTwinPtr = some (greetTwin.storeAs (SliceHdr.window 11 0 0 0))) ∧
      ((∃ m' hdr, Command.AddSubCommand twinMem scenarioAlloc toolsPtr greetTwinPtr = some m' ∧
          m'.cmds toolsPtr = some { tools.storeAs (SliceHdr.window 12 0 1 1) with
            SubCommands := hdr,
            Parent := if toolsPtr = greetTwinPtr then some toolsPtr
              else (tools.storeAs (SliceHdr.window 12 0 1 1)).Parent } ∧
          m'.elems hdr
            = twinMem.elems (tools.storeAs (SliceHdr.window 12 0 1 1)).SubCommands
              ++ [some greetTwinPtr] ∧
          (m'.load toolsPtr).map (fun v => v.SubCommands.toList)
            = (twinMem.load toolsPtr).map (fun v => v.SubCommands.toList ++ [greetTwinPtr]) ∧
          m'.cmds greetTwinPtr = some { greetTwin.storeAs (SliceHdr.window 11 0 0 0) with
            Parent := some toolsPtr,
            SubCommands := if toolsPtr = greetTwinPtr then hdr
              else (greetTwin.storeAs (SliceHdr.window 11 0 0 0)).SubCommands } ∧
          (∀ p, p ≠ toolsPtr → p ≠ greetTwinPtr → m'.cmds p = twinMem.cmds p) ∧
          ∀ b i, b ≠ scenarioAlloc.fresh →
            (∀ o l k, (tools.storeAs (SliceHdr.window 12 0 1 1)).SubCommands
                = SliceHdr.window b o l k → i ≠ o + l) →
            m'.arrs b i = twinMem.arrs b i) ∧
        ((demo.AddCommand greetTwinPtr).Commands
            = Slice.mk (demo.Commands.toList ++ [greetTwinPtr]) ∧
          (demo.AddCommand greetTwinPtr).Flags = demo.Flags ∧
          (demo.AddCommand greetTwinPtr).Name = demo.Name ∧
          (demo.AddCommand greetTwinPtr).Version = demo.Version ∧
          (demo.AddCommand greetTwinPtr).Description = demo.Description ∧
          (demo.AddCommand greetTwinPtr).Usage = demo.Usage ∧
          (demo.AddCommand greetTwinPtr).Action = demo.Action)) :=
  ⟨⟨rfl, rfl⟩,
    registration_appends twinMem scenarioAlloc toolsPtr greetTwinPtr
      (tools.storeAs (SliceHdr.window 12 0 1 1))
      (greetTwin.storeAs (SliceHdr.window 11 0 0 0)) demo greetTwinPtr rfl rfl⟩

/-- C12, amended. Registration checks no name, so every command is accepted.
For every app, the names of its children after `AddCommand` are the earlier
names followed by the name of the new command, whatever that name; for every
command allocated at `c`, `AddSubCommand` returns and the names of the
children of `c` are the earlier names followed by the name of `sub`. In both
cases the names are pairwise distinct afterwards exactly when they were
before and the new name is the name of no earlier child. -/
theorem registration_checks_no_name (m : Mem) (al : Alloc) (a : App) (cmd : CmdPtr)
    (d : Command) (c sub : CmdPtr) (r s : StoredCommand)
    (hd : m.load cmd = some d) (hc : m.cmds c = some r) (hs : m.cmds sub = some s) :
    ((a.AddCommand cmd).Commands.toList = a.Commands.toList ++ [cmd] ∧
        childNames m.load (a.AddCommand cmd).Commands
          = childNames m.load a.Commands ++ [d.Name] ∧
        ((childNames m.load (a.AddCommand cmd).Commands).Nodup ↔
          (childNames m.load a.Commands).Nodup ∧ d.Name ∉ childNames m.load a.Commands)) ∧
      ∃ m', Command.AddSubCommand m al c sub = some m' ∧
        (m'.load c).map (fun v => v.SubCommands.toList)
          = (m.load c).map (fun v => v.SubCommands.toList ++ [sub]) ∧
        m'.kidNames c = m.kidNames c ++ [s.Name] ∧
        ((m'.kidNames c).Nodup ↔ (m.kidNames c).Nodup ∧ s.Name ∉ m.kidNames c) := by
  have happ : childNames m.load (a.AddCommand cmd).Commands
      = childNames m.load a.Commands ++ [d.Name] := by
    show childNames m.load (Slice.mk (a.Commands.toList ++ [cmd])) = _
    rw [childNames_append m.load _ cmd d hd]
    rfl
  refine ⟨⟨rfl, happ, ?_⟩, ?_⟩
  · rw [happ]
    exact nodup_snoc_iff _ _
  · obtain ⟨m', hadd, hkids, hnames⟩ := AddSubCommand_kidNames m al c sub r s hc hs
    refine ⟨m', hadd, hkids, hnames, ?_⟩
    rw [hnames]
    exact nodup_snoc_iff _ _

/-- Witness of C12, amended: a second command named greet registered on demo
and under tools, each of which has the child greet already. -/
theorem registration_checks_no_name_witness :
    (twinMem.load greetTwinPtr = some greetTwin ∧
        twinMem.cmds toolsPtr = some (tools.storeAs (SliceHdr.window 12 0 1 1)) ∧
        twinMem.cmds greetTwinPtr = some (greetTwin.storeAs (SliceHdr.window 11 0 0 0))) ∧
      (childNames twinMem.load demo.Commands = ["greet"] ∧
        twinMem.kidNames toolsPtr = ["greet"] ∧ greetTwin.Name = "greet") ∧
      (((demo.AddCommand greetTwinPtr).Commands.toList
            = demo.Commands.toList ++ [greetTwinPtr] ∧
          childNames twinMem.load (demo.AddCommand greetTwinPtr).Commands
            = childNames twinMem.load demo.Commands ++ [greetTwin.Name] ∧
          ((childNames twinMem.load (demo.AddCommand greetTwinPtr).Commands).Nodup ↔
            (childNames twinMem.load demo.Commands).Nodup ∧
              greetTwin.Name ∉ childNames twinMem.load demo.Commands)) ∧
        ∃ m', Command.AddSubCommand twinMem scenarioAlloc toolsPtr greetTwinPtr = some m' ∧
          (m'.load toolsPtr).map (fun v => v.SubCommands.toList)
            = (twinMem.load toolsPtr).map (fun v => v.SubCommands.toList ++ [greetTwinPtr]) ∧
          m'.kidNames toolsPtr
            = twinMem.kidNames toolsPtr
              ++ [(greetTwin.storeAs (SliceHdr.window 11 0 0 0)).Name] ∧
          ((m'.kidNames toolsPtr).Nodup ↔
            (twinMem.kidNames toolsPtr).Nodup ∧
              (greetTwin.storeAs (SliceHdr.window 11 0 0 0)).Name
                ∉ twinMem.kidNames toolsPtr)) :=
  ⟨⟨rfl, rfl, rfl⟩, ⟨by decide, by decide, rfl⟩,
    registration_checks_no_name twinMem scenarioAlloc demo greetTwinPtr greetTwin
      toolsPtr greetTwinPtr (tools.storeAs (SliceHdr.window 12 0 1 1))
      (greetTwin.storeAs (SliceHdr.window 11 0 0 0)) rfl rfl rfl⟩

/-! ## Flag factories and constructors -/

/-- C13 (the code at the failing input). The factories called with name name
and short alias n return a flag whose `Short` is name, not n; the name, the
usage, the required mark and the type are the ones given. -/
theorem flag_factories_short_is_name :
    (StringFlag "name" "n" "who" true).Short = "name" ∧
      (StringFlag "name" "n" "who" true).Short ≠ "n" ∧
      (IntFlag "name" "n" "who" true).Short = "name" ∧
      (IntFlag "name" "n" "who" true).Short ≠ "n" ∧
      (∀ name short usage required,
        (StringFlag name short usage required).Short = name ∧
        (StringFlag name short usage required).Name = name ∧
        (StringFlag name short usage required).Usage = usage ∧
        (StringFlag name short usage required).Required = required ∧
        (StringFlag name short usage required).Type_ = "string" ∧
        (IntFlag name short usage required).Short = name ∧
        (IntFlag name short usage required).Name = name ∧
        (IntFlag name short usage required).Usage = usage ∧
        (IntFlag name short usage required).Required = required ∧
        (IntFlag name short usage required).Type_ = "int") :=
  ⟨rfl, by decide, rfl, by decide,
    fun _ _ _ _ => ⟨rfl, rfl, rfl, rfl, rfl, rfl, rfl, rfl, rfl, rfl⟩⟩

/-- C14. For all strings name, short and usage, `BoolFlag` returns a flag that
is not required, of type boolean, named name. -/
theorem BoolFlag_not_required (name short usage : String) :
    (BoolFlag name short usage).Required = false ∧
      (BoolFlag name short usage).Type_ = "boolean" ∧
      (BoolFlag name short usage).Name = name :=
  ⟨rfl, rfl, rfl⟩

/-- C16. The app `NewApp` returns has allocated, empty commands and flags,
an empty name, version and description and no action; for all strings the
command `NewCommand` returns has the name, short and long description given,
allocated empty flags and subcommands, and no parent. -/
theorem constructors_initialise (name short long : String) :
    (NewApp.Commands ≠ Slice.nil ∧ NewApp.Commands.toList = [] ∧
        NewApp.Flags ≠ Slice.nil ∧ NewApp.Flags.toList = [] ∧
        NewApp.Name = "" ∧ NewApp.Version = "" ∧ NewApp.Description = "" ∧
        NewApp.Action.isNone = true) ∧
      ((NewCommand name short long).Name = name ∧
        (NewCommand name short long).Short = short ∧
        (NewCommand name short long).Long = long ∧
        (NewCommand name short long).Flags = Slice.mk [] ∧
        (NewCommand name short long).SubCommands = Slice.mk [] ∧
        (NewCommand name short long).Parent = none) :=
  ⟨⟨by decide, rfl, by decide, rfl, rfl, rfl, rfl, rfl⟩, rfl, rfl, rfl, rfl, rfl, rfl⟩

/-! ## When the resolver returns -/

/-- A pass that returns makes the loop return the same, given any fuel. -/
theorem parseArgsLoop_ret (ctx : Context) (args : List String) (i fuel : Nat)
    (c : Context) (e : Option Error) (h : parseArgsStep ctx args i = LoopStep.ret c e) :
    parseArgsLoop ctx args (fuel + 1) i = some (c, e) := by
  simp only [parseArgsLoop, h]

/-- Whatever the loop returns is what the pass at its starting cursor returns. -/
theorem parseArgsLoop_some (ctx : Context) (args : List String) (fuel i : Nat)
    (r : Context × Option Error) (h : parseArgsLoop ctx args fuel i = some r) :
    parseArgsStep ctx args i = LoopStep.ret r.1 r.2 := by
  cases fuel with
  | zero => simp [parseArgsLoop] at h
  | succ n =>
    unfold parseArgsLoop at h
    split at h
    · rename_i c e hstep
      injection h with h
      rw [hstep, ← h]
    · rename_i j hstep
      have hj : j = i := parseArgsStep_next ctx args i j hstep
      subst hj
      rw [parseArgsLoop_stuck ctx args j hstep n] at h
      exact Option.noConfusion h

/-- The test of the loop for a help token, spelled out. -/
theorem isHelpToken_iff (t : String) :
    isHelpToken t = true ↔ t = "help" ∨ t = "--help" ∨ t = "-h" := by
  simp [isHelpToken, or_assoc]

/-- The loop state is the state the fuelled loop runs through: the resolver
returns `r` on `args`, given some fuel, exactly when some pass from the loop
state returns `r`. -/
theorem parseArgs_returns_iff_state (a : AppPtr) (args : List String)
    (r : Context × Option Error) :
    (∃ fuel, App.parseArgs fuel a args = some r) ↔
      ∃ k, parseArgsStep (parseArgsState (initialContext a) args k).1 args
        (parseArgsState (initialContext a) args k).2 = LoopStep.ret r.1 r.2 := by
  have hcur : ∀ k, (parseArgsState (initialContext a) args k).2 = 0 := by
    intro k
    induction k with
    | zero => rfl
    | succ n ih =>
      simp only [parseArgsState]
      cases hstep : parseArgsStep (parseArgsState (initialContext a) args n).1 args
          (parseArgsState (initialContext a) args n).2 with
      | ret c e => exact ih
      | next j =>
        have hj := parseArgsStep_next _ _ _ _ hstep
        show j = 0
        rw [hj, ih]
  constructor
  · rintro ⟨fuel, hr⟩
    exact ⟨0, parseArgsLoop_some _ _ fuel 0 r hr⟩
  · rintro ⟨k, hk⟩
    rw [parseArgsState_ctx, hcur] at hk
    exact ⟨1, parseArgsLoop_ret _ _ 0 0 _ _ hk⟩

/-- C15, counterexample. In the scenario of the specification, where greet is
the only top-level command and is no help token, the resolver never returns,
on the token greet, a context whose command is greet. -/
theorem parseArgs_descent_fails :
    (childNames demoHeap demo.Commands).Nodup ∧
      greet.Name ∈ childNames demoHeap demo.Commands ∧
      isHelpToken greet.Name = false ∧
      ¬ ∃ ctx err, Returns 0 [greet.Name] (ctx, err) ∧ ctx.Command = some greetPtr := by
  refine ⟨by decide, by decide, by decide, ?_⟩
  rintro ⟨ctx, err, ⟨fuel, hret⟩, hcmd⟩
  have hctx : ctx = initialContext 0 := parseArgsLoop_ctx _ _ fuel 0 ctx err hret
  rw [hctx] at hcmd
  exact Option.noConfusion hcmd

/-- C15, amended. The resolver does not descend into commands. For every
app and every token `t`, the name of a command or not, on the token `t` alone:
after any number of passes through the loop the context the resolver holds
has no command; a pass at any cursor either goes on or returns the context it
was given; what the resolver has returned, if anything, carries the initial
context, without a command; and two runs that both return give the same
result. -/
theorem parseArgs_never_descends (a : AppPtr) (t : String) (k i fuel fuel' : Nat)
    (ctx : Context) :
    (parseArgsState (initialContext a) [t] k).1.Command = none ∧
      ((∃ j, parseArgsStep ctx [t] i = LoopStep.next j) ∨
        ∃ e, parseArgsStep ctx [t] i = LoopStep.ret ctx e) ∧
      ((App.parseArgs fuel a [t] = none ∨
          ∃ e, App.parseArgs fuel a [t] = some (initialContext a, e)) ∧
        (initialContext a).Command = none) ∧
      (App.parseArgs fuel a [t] = none ∨ App.parseArgs fuel' a [t] = none ∨
        App.parseArgs fuel a [t] = App.parseArgs fuel' a [t]) := by
  refine ⟨?_, parseArgsStep_keeps _ _ _, ⟨parseArgs_result _ _ _, rfl⟩, ?_⟩
  · rw [parseArgsState_ctx]
    rfl
  · cases hr : App.parseArgs fuel a [t] with
    | none => exact Or.inl rfl
    | some r =>
      cases hr' : App.parseArgs fuel' a [t] with
      | none => exact Or.inr (Or.inl rfl)
      | some r' =>
        have h1 := parseArgsLoop_some _ _ fuel 0 r hr
        have h2 := parseArgsLoop_some _ _ fuel' 0 r' hr'
        rw [h1] at h2
        injection h2 with hc he
        exact Or.inr (Or.inr (congrArg some (Prod.ext hc he)))

/-- Witness of C15, amended: the scenario of the specification, the token
greet, after two passes and with a pass at cursor 0, on the command name. -/
theorem parseArgs_never_descends_witness :
    (parseArgsState (initialContext 0) [greet.Name] 2).1.Command = none ∧
      ((∃ j, parseArgsStep (initialContext 0) [greet.Name] 0 = LoopStep.next j) ∨
        ∃ e, parseArgsStep (initialContext 0) [greet.Name] 0
          = LoopStep.ret (initialContext 0) e) ∧
      ((App.parseArgs 2 0 [greet.Name] = none ∨
          ∃ e, App.parseArgs 2 0 [greet.Name] = some (initialContext 0, e)) ∧
        (initialContext 0).Command = none) ∧
      (App.parseArgs 2 0 [greet.Name] = none ∨ App.parseArgs 5 0 [greet.Name] = none ∨
        App.parseArgs 2 0 [greet.Name] = App.parseArgs 5 0 [greet.Name]) :=
  parseArgs_never_descends 0 greet.Name 2 0 2 5 (initialContext 0)

/-- C17. For every app and token sequence, the resolver returns exactly when
the sequence is empty or its first token is help, --help or -h. On the empty
sequence it returns no error, and on a first help token the error
help_requested, at the first test of the loop; the context is the one with no
command, an empty flag map, no positional and the receiver as app. -/
theorem parseArgs_returns_iff (a : AppPtr) (args : List String) :
    ((∃ fuel r, App.parseArgs fuel a args = some r) ↔
        (args = [] ∨ ∃ t ts, args = t :: ts ∧ (t = "help" ∨ t = "--help" ∨ t = "-h"))) ∧
      (∀ fuel, App.parseArgs (fuel + 1) a [] = some (initialContext a, none)) ∧
      (∀ fuel ts,
        App.parseArgs (fuel + 1) a ("help" :: ts)
          = some (initialContext a, some "help_requested") ∧
        App.parseArgs (fuel + 1) a ("--help" :: ts)
          = some (initialContext a, some "help_requested") ∧
        App.parseArgs (fuel + 1) a ("-h" :: ts)
          = some (initialContext a, some "help_requested")) ∧
      initialContext a
        = { Command := none, Flags := [], Args := Slice.mk [], App := some a } := by
  refine ⟨⟨?_, ?_⟩, ?_, ?_, rfl⟩
  · rintro ⟨fuel, r, hr⟩
    cases args with
    | nil => exact Or.inl rfl
    | cons t ts =>
      refine Or.inr ⟨t, ts, rfl, ?_⟩
      have hstep := parseArgsLoop_some _ _ fuel 0 r hr
      cases hb : isHelpToken t with
      | true => exact (isHelpToken_iff t).mp hb
      | false =>
        rw [parseArgsStep_head _ t ts hb] at hstep
        exact LoopStep.noConfusion hstep
  · rintro (h | ⟨t, ts, h, ht⟩)
    · subst h
      exact ⟨1, _, rfl⟩
    · subst h
      exact ⟨1, _, parseArgsLoop_ret _ _ 0 0 _ _
        (parseArgsStep_help _ t ts ((isHelpToken_iff t).mpr ht))⟩
  · intro fuel
    exact parseArgsLoop_ret (initialContext a) [] 0 fuel (initialContext a) none rfl
  · intro fuel ts
    exact ⟨parseArgsLoop_ret _ _ 0 fuel _ _ (parseArgsStep_help _ _ ts (by decide)),
      parseArgsLoop_ret _ _ 0 fuel _ _ (parseArgsStep_help _ _ ts (by decide)),
      parseArgsLoop_ret _ _ 0 fuel _ _ (parseArgsStep_help _ _ ts (by decide))⟩

/-! ## The orchestrator and its arguments -/

/-- C18. For every app and any two argument lists, `Run` returns the same
result, nil, and appends the same text, the root help; the result does not
depend on the action registered on the app, and `Run` returns on arguments
whose content the resolver never finishes reading. -/
theorem Run_independent_of_args (sty : Style) (a : App) (args1 args2 : List String)
    (out : String) (f : Option Action) :
    a.Run sty args1 out = a.Run sty args2 out ∧
      a.Run sty args1 out = (out ++ rootHelp sty a, none) ∧
      ({ a with Action := f }).Run sty args1 out = a.Run sty args1 out ∧
      ((∀ fuel p, App.parseArgs fuel p ["greet"] = none) ∧
        a.Run sty ["demo", "greet"] out = (out ++ rootHelp sty a, none)) := by
  have hrun : ∀ (b : App) (args : List String),
      b.Run sty args out = (out ++ rootHelp sty b, none) := by
    intro b args
    unfold App.Run rootHelp
    split <;> rw [printHelp_append]
  refine ⟨by rw [hrun, hrun], hrun a args1, ?_, ?_, hrun a _⟩
  · rw [hrun, hrun]
    rfl
  · intro fuel p
    exact parseArgsLoop_stuck _ _ 0 (parseArgsStep_head _ _ _ (by decide)) fuel

/-! ## Line ends of the header -/

/-- C19 (the code at the failing input). For app demo with the description
A demo and no command, the header closes its description with the two
characters slash and n: it does not end with the newline character. -/
theorem formatHeader_description_line_open :
    demoDescribed.formatHeader Style.plain none = "📦 demo v1.0.0\nA demo/n" ∧
      ¬ ("\n".data <:+ (demoDescribed.formatHeader Style.plain none).data) := by
  decide

end Cliparser
